import Mathlib

/-!
Verification of the commit-log parser/classifier, the contributor-tier
classifier and the bug-analysis record builder of the OpenSource analysis
scripts.  The Python sources are shallowly embedded as executable Lean
definitions; external library calls (`pandas.to_datetime`) are passed in as
function parameters where the surrounding control flow is what matters.
-/

namespace OSrc

/-! ## Python string primitives

Character-list based models of the Python string operations used by the
scripts (`str.strip`, `str.split` on a single-character separator, `in`,
slicing, `int(...)`).  Only the ASCII behaviour is modelled; all inputs in
the repository's log format and in the claims are ASCII.
-/

/-- ASCII whitespace stripped by Python `str.strip()`. -/
def isPySpace (c : Char) : Bool :=
  c = ' ' || c = '\t' || c = '\n' || c = '\r' || c = '\x0b' || c = '\x0c'

/-- Python `str.strip()` on a character list. -/
def stripL (l : List Char) : List Char :=
  ((l.dropWhile isPySpace).reverse.dropWhile isPySpace).reverse

/-- Python `str.strip()`. -/
def pythonStrip (s : String) : String :=
  String.mk (stripL s.data)

/-- Python `s.split(sep)` for a one-character separator (no maxsplit):
splits on every occurrence, keeping empty parts. -/
def splitChar (sep : Char) : List Char → List (List Char)
  | [] => [[]]
  | c :: cs =>
    let r := splitChar sep cs
    if c = sep then [] :: r
    else
      match r with
      | x :: xs => (c :: x) :: xs
      | [] => [[c]]

/-- A nonempty sequence of decimal digits and its value (`int("…")` on a
plain digit string). -/
def digitsVal (l : List Char) : Option Nat :=
  if l.isEmpty || l.any (fun c => !c.isDigit) then none
  else some (l.foldl (fun acc c => acc * 10 + (c.toNat - '0'.toNat)) 0)

/-- Python `int(s)`: strip whitespace, optional sign, decimal digits.
(The digit-grouping underscore accepted by Python 3 is not modelled; no
input in this repository or in the claims uses it.) -/
def pyInt (s : String) : Option Int :=
  match stripL s.data with
  | '+' :: rest => (digitsVal rest).map Int.ofNat
  | '-' :: rest => (digitsVal rest).map (fun n => -(n : Int))
  | t => (digitsVal t).map Int.ofNat

/-! ## Commit classifier (`classify_commit_type`)

`commit_type_analysis.py` lines 134–160: the subject is lowercased and the
eight pattern groups are tried in insertion order; inside a group the
patterns are tried in list order; the first match wins, otherwise `other`.
Each pattern is either `word\b` (a literal word followed by a regex word
boundary) or `update\b.*version` (word, boundary, any non-newline gap,
second literal).  `re.search` scans every starting position.
-/

/-- Regex word character (`\w`), ASCII part: the patterns and subjects in
the claims are ASCII. -/
def isWordChar (c : Char) : Bool :=
  c.isAlphanum || c = '_'

/-- A `\b` word boundary holds just after a word character iff the rest of
the input starts with a non-word character or is empty. -/
def boundaryOK : List Char → Bool
  | [] => true
  | c :: _ => !isWordChar c

/-- The literal word `w` (ending in a word character) matches at the head
of `s`, followed by a word boundary. -/
def matchWordAt : List Char → List Char → Bool
  | [], rest => boundaryOK rest
  | _ :: _, [] => false
  | a :: w, c :: s => a = c && matchWordAt w s

/-- Model of `re.search(w + "\b", s)` for a literal word `w` ending in a word
character: some suffix of `s` starts with `w` at a right word boundary. -/
def searchWordB (w : List Char) : List Char → Bool
  | [] => matchWordAt w []
  | c :: s => matchWordAt w (c :: s) || searchWordB w s

/-- Whether `v` occurs after a (possibly empty) gap of non-newline characters
(`.*v` anchored at the head of `s`). -/
def gapMatch (v : List Char) : List Char → Bool
  | [] => v.isEmpty
  | c :: s => List.isPrefixOf v (c :: s) || (c ≠ '\n' && gapMatch v s)

/-- Whether `u\b.*v` matches at the head of `s`. -/
def matchGapAt (u v : List Char) : List Char → Bool
  | [] => u.isEmpty && boundaryOK [] && gapMatch v []
  | c :: s =>
    match u with
    | [] => boundaryOK (c :: s) && gapMatch v (c :: s)
    | a :: u' => a = c && matchGapAt u' v s

/-- Model of `re.search(u + "\b.*" + v, s)`. -/
def searchWordGap (u v : List Char) : List Char → Bool
  | [] => matchGapAt u v []
  | c :: s => matchGapAt u v (c :: s) || searchWordGap u v s

/-- One classifier pattern: `word w` is the regex `w\b`, `wordGapWord u v`
is the regex `u\b.*v`. -/
inductive Pat where
  | word (w : String)
  | wordGapWord (u v : String)
deriving DecidableEq

/-- Model of `re.search(pattern, message)` for the two pattern shapes used. -/
def Pat.search : Pat → List Char → Bool
  | .word w, s => searchWordB w.data s
  | .wordGapWord u v, s => searchWordGap u.data v.data s

def featurePats : List Pat :=
  [.word "add", .word "feat", .word "feature", .word "new", .word "implement"]

def bugfixPats : List Pat :=
  [.word "fix", .word "bug", .word "issue", .word "error", .word "bugfix"]

def refactorPats : List Pat :=
  [.word "refactor", .word "cleanup", .word "clean", .word "optimize"]

def documentationPats : List Pat :=
  [.word "doc", .word "documentation", .word "readme", .word "comment"]

def testPats : List Pat :=
  [.word "test", .word "unit", .word "coverage", .word "fixture"]

def stylePats : List Pat :=
  [.word "style", .word "format", .word "pep8", .word "whitespace"]

def chorePats : List Pat :=
  [.word "chore", .word "bump", .wordGapWord "update" "version", .word "dependency"]

def performancePats : List Pat :=
  [.word "performance", .word "optimization", .word "speed"]

/-- The `patterns` dict of `classify_commit_type`, in insertion order. -/
def patternGroups : List (String × List Pat) :=
  [("feature", featurePats), ("bugfix", bugfixPats), ("refactor", refactorPats),
   ("documentation", documentationPats), ("test", testPats), ("style", stylePats),
   ("chore", chorePats), ("performance", performancePats)]

/-- Some pattern of the group matches the (already lowercased) message. -/
def groupMatches (pats : List Pat) (lowered : List Char) : Bool :=
  pats.any (fun p => p.search lowered)

/-- Python `message.lower()` (ASCII case folding; the patterns are ASCII, and
`re.IGNORECASE` on an already lowercased ASCII message is a no-op). -/
def lowerData (message : String) : List Char :=
  message.data.map Char.toLower

/-- Embedding of `classify_commit_type` (lines 134–160).  The Lean input is always a
string, so the `isinstance` guard's non-string branch is not reachable in
the embedding; the `try/except` around `re.search` only guards regex
compilation errors, which cannot occur for these fixed patterns. -/
def classify_commit_type (message : String) : String :=
  match patternGroups.find? (fun g => groupMatches g.2 (lowerData message)) with
  | some g => g.1
  | none => "other"

/-! ## Calendar helpers

Proleptic Gregorian calendar, shared by the model of `pandas.to_datetime`
on `git log --date=short` output and by `datetime.strptime` in the bug
analysis. -/

def isLeapYear (y : Nat) : Bool :=
  y % 4 = 0 && (y % 100 ≠ 0 || y % 400 = 0)

def daysInMonth (y m : Nat) : Nat :=
  if m = 2 then (if isLeapYear y then 29 else 28)
  else if m = 4 || m = 6 || m = 9 || m = 11 then 30
  else 31

/-- A calendar date (the payload of a successful `pandas.to_datetime`). -/
structure Date where
  year : Nat
  month : Nat
  day : Nat
deriving DecidableEq

/-- Modelled external collaborator: `pandas.to_datetime(s)` restricted to
the `YYYY-MM-DD` layout that `git log --date=short` emits; every other
input is treated as a parse failure (`none`, standing for the raised
exception).  The parser embedding below is parameterised over this
function, so the theorems about control flow hold for any date parser. -/
def parseDateISO (s : String) : Option Date :=
  match (splitChar '-' s.data).map String.mk with
  | [ys, ms, ds] =>
    match digitsVal ys.data, digitsVal ms.data, digitsVal ds.data with
    | some y, some m, some d =>
      if ys.length = 4 ∧ ms.length = 2 ∧ ds.length = 2 ∧ 1 ≤ y ∧
          1 ≤ m ∧ m ≤ 12 ∧ 1 ≤ d ∧ d ≤ daysInMonth y m then
        some ⟨y, m, d⟩
      else none
    | _, _, _ => none
  | _ => none

/-! ## Commit parser (`get_commit_data`, lines 64–126)

The Python loop keeps `commits` (the output list) and `current_commit`
(a mutable dict).  On a header line (non-empty, contains `|`, no tab) the
in-progress dict is appended *before* the four-field check, and it is
replaced only when the check succeeds; so after a malformed header the
already-appended dict stays current, keeps absorbing stat lines, and is
appended again at the next header or at the final flush.  Because Python
appends references, every appended copy shows the dict's final contents.
The embedding keeps the in-progress record out of the output until it can
no longer change, together with the number of copies already appended
(`PState.cur = some (c, n)`: `c` appended `n` times so far), and emits
`n + 1` copies of the final value when `c` is replaced or at end of input.
The uncaught `ValueError` of `int(date.strip().split('-')[0])` (line 85)
is modelled as `none`, matching the outer `except` that makes the whole
function return `None`. -/

structure FileChange where
  filename : String
  additions : Int
  deletions : Int
  changed_lines : Int
deriving DecidableEq

structure Commit where
  hash : String
  author : String
  date : Option Date
  message : String
  year : Option Int
  month : Option String
  files : List FileChange
  additions : Int
  deletions : Int
  changed_lines : Int
  file_count : Nat
  commit_type : String
deriving DecidableEq

/-- Predicate `line and '|' in line and '\t' not in line` (line 68). -/
def isHeaderLine (l : String) : Bool :=
  !l.data.isEmpty && l.data.contains '|' && !l.data.contains '\t'

/-- Predicate `line and '\t' in line` (line 94). -/
def isStatLine (l : String) : Bool :=
  !l.data.isEmpty && l.data.contains '\t'

/-- Python `line.split('|', 3)` (line 72): at most three splits, the tail keeps
its separators. -/
def splitPipe3 (l : String) : List String :=
  match splitChar '|' l.data with
  | a :: b :: c :: d :: rest =>
    [String.mk a, String.mk b, String.mk c,
     String.mk (List.intercalate ['|'] (d :: rest))]
  | parts => parts.map String.mk

/-- First `|`-field of a header line, stripped: the `hash` a well-formed
header contributes. -/
def headerHash (l : String) : String :=
  pythonStrip ((splitPipe3 l).getD 0 "")

/-- The `year` computation of line 85,
`int(date.strip().split('-')[0]) if date.strip() and '-' in date else None`:
`none` = the `int` call raised (uncaught), `some y` = the stored value. -/
def yearField (d : String) : Option (Option Int) :=
  if ¬(pythonStrip d).data.isEmpty ∧ d.data.contains '-' then
    match pyInt (String.mk ((splitChar '-' (pythonStrip d).data).getD 0 [])) with
    | none => none
    | some v => some (some v)
  else some none

/-- The fresh `current_commit` dict of lines 80–93 (given the already
computed `year`). -/
def mkCommit (pd : String → Option Date) (h a d m : String)
    (yr : Option Int) : Commit :=
  { hash := pythonStrip h
    author := pythonStrip a
    date := pd (pythonStrip d)
    message := pythonStrip m
    year := yr
    month := if ¬(pythonStrip d).data.isEmpty ∧ 7 ≤ (pythonStrip d).data.length
             then some (String.mk ((pythonStrip d).data.take 7)) else none
    files := []
    additions := 0
    deletions := 0
    changed_lines := 0
    file_count := 0
    commit_type := classify_commit_type (pythonStrip m) }

/-- Header processing, lines 72–93.  Result:
`none` = uncaught exception (the `int` call on the year part raised, the
outer handler returns `None` for the whole run);
`some none` = not exactly four fields, no new record;
`some (some c)` = a fresh record. -/
def parseHeader (pd : String → Option Date) (line : String) :
    Option (Option Commit) :=
  if (splitPipe3 line).length = 4 then
    match yearField ((splitPipe3 line).getD 2 "") with
    | none => none
    | some yr =>
      some (some (mkCommit pd ((splitPipe3 line).getD 0 "")
        ((splitPipe3 line).getD 1 "") ((splitPipe3 line).getD 2 "")
        ((splitPipe3 line).getD 3 "") yr))
  else some none

/-- Stat-field parsing, lines 101–107: `'-'` maps to zero; a failed
`int` on the additions field leaves both at zero, a failed `int` on the
deletions field leaves only the deletions at zero. -/
def parseNums (a b : String) : Int × Int :=
  match (if a = "-" then some 0 else pyInt a) with
  | none => (0, 0)
  | some ad => (ad, (if b = "-" then some 0 else pyInt b).getD 0)

/-- Stat-line processing, lines 96–119: `line.strip().split('\t')` must
have exactly three fields, otherwise the line is ignored. -/
def addStat (c : Commit) (line : String) : Commit :=
  match (splitChar '\t' (stripL line.data)).map String.mk with
  | [a, b, f] =>
    let nums := parseNums a b
    { c with
      files := c.files ++
        [{ filename := f, additions := nums.1, deletions := nums.2,
           changed_lines := nums.1 + nums.2 }]
      additions := c.additions + nums.1
      deletions := c.deletions + nums.2
      changed_lines := c.changed_lines + (nums.1 + nums.2)
      file_count := c.file_count + 1 }
  | _ => c

/-- Loop state: emitted records, plus the in-progress record with the
number of copies of it already appended to the Python list. -/
structure PState where
  finished : List Commit
  cur : Option (Commit × Nat)

/-- One iteration of the `for line in lines` loop (lines 67–119). -/
def step (pd : String → Option Date) (s : PState) (line : String) :
    Option PState :=
  if isHeaderLine line then
    match parseHeader pd line with
    | none => none
    | some none =>
      match s.cur with
      | none => some s
      | some (c, n) => some ⟨s.finished, some (c, n + 1)⟩
    | some (some newc) =>
      match s.cur with
      | none => some ⟨s.finished, some (newc, 0)⟩
      | some (c, n) =>
        some ⟨s.finished ++ List.replicate (n + 1) c, some (newc, 0)⟩
  else if isStatLine line then
    match s.cur with
    | none => some s
    | some (c, n) => some ⟨s.finished, some (addStat c line, n)⟩
  else
    some s

/-- The whole loop. -/
def runLines (pd : String → Option Date) : PState → List String → Option PState
  | s, [] => some s
  | s, l :: ls =>
    match step pd s l with
    | none => none
    | some s' => runLines pd s' ls

/-- Final flush (lines 121–123) plus materialisation of the pending
aliased copies. -/
def finalize (s : PState) : List Commit :=
  match s.cur with
  | none => s.finished
  | some (c, n) => s.finished ++ List.replicate (n + 1) c

/-- Parse a list of already-split lines into the commit list (`None` on
an uncaught exception). -/
def processLines (pd : String → Option Date) (lines : List String) :
    Option (List Commit) :=
  (runLines pd ⟨[], none⟩ lines).map finalize

/-- The line list `result.stdout.strip().split('\n')` (line 58). -/
def logLines (stdout : String) : List String :=
  (splitChar '\n' (stripL stdout.data)).map String.mk

/-- Embedding of `get_commit_data` (lines 58–126), as a function of the text produced
by the external `git log` call and of the external date parser.  `none`
models every `return None` path: empty input (line 60) and the uncaught
exception caught at line 128. -/
def get_commit_data (pd : String → Option Date) (stdout : String) :
    Option (List Commit) :=
  if (logLines stdout).length = 1 ∧ (logLines stdout).getD 0 "" = "" then none
  else processLines pd (logLines stdout)

/-! ## Contributor classifier (`contributor_analysis.py`, lines 90–104)

`classify_contributor` reads `row['commit_count']` and `row['active_days']`
(both integers; `active_days` has already been floored at zero upstream)
and returns one of five tier labels, first matching threshold wins. -/

def classify_contributor (commit_count active_days : Int) : String :=
  if 100 ≤ commit_count ∧ 365 ≤ active_days then "Core Contributor"
  else if 50 ≤ commit_count then "Active Contributor"
  else if 10 ≤ commit_count then "Regular Contributor"
  else if 2 ≤ commit_count then "Occasional Contributor"
  else "One-time Contributor"

/-! ## Bug analysis (`bug_analysis/scripts/analyze_bugs.py`, lines 38–62)

`analyze_and_save` walks the fetched issue list, skips every object with a
`pull_request` key before any timestamp is touched, and builds one record
per remaining issue via `datetime.strptime(…, "%Y-%m-%dT%H:%M:%SZ")`.
There is no `try/except`: a malformed timestamp raises and nothing is
saved, modelled as `none`.  Only the record construction is embedded; the
CSV/plot output is presentational. -/

/-- A `datetime` value produced by `strptime`. -/
structure PyDateTime where
  year : Nat
  month : Nat
  day : Nat
  hour : Nat
  minute : Nat
  second : Nat
deriving DecidableEq

/-- Days before January 1 of year `y` in the proleptic Gregorian
calendar (`datetime.date.toordinal` minus one, for day 1-1). -/
def daysBeforeYear (y : Nat) : Nat :=
  365 * (y - 1) + (y - 1) / 4 + (y - 1) / 400 - (y - 1) / 100

/-- Days in year `y` before month `m`. -/
def daysBeforeMonth (y m : Nat) : Nat :=
  (List.range (m - 1)).foldl (fun acc i => acc + daysInMonth y (i + 1)) 0

/-- Python `datetime.date(y, m, d).toordinal()`. -/
def toOrdinal (y m d : Nat) : Nat :=
  daysBeforeYear y + daysBeforeMonth y m + d

/-- Seconds since the epoch `0001-01-01T00:00:00` (any fixed epoch gives
the same differences, which is all the script uses). -/
def toSeconds (t : PyDateTime) : Int :=
  ((toOrdinal t.year t.month t.day) * 86400 +
    t.hour * 3600 + t.minute * 60 + t.second : Nat)

/-- Python `datetime.strptime(s, "%Y-%m-%dT%H:%M:%SZ")`, `none` for the raised
`ValueError`.  The `datetime` constructor validates month, month-aware
day, hour, minute and second ranges. -/
def strptimeGH (s : String) : Option PyDateTime :=
  match s.data with
  | [y1, y2, y3, y4, '-', n1, n2, '-', d1, d2, 'T',
     h1, h2, ':', i1, i2, ':', s1, s2, 'Z'] =>
    match digitsVal [y1, y2, y3, y4], digitsVal [n1, n2], digitsVal [d1, d2],
        digitsVal [h1, h2], digitsVal [i1, i2], digitsVal [s1, s2] with
    | some y, some mo, some d, some h, some mi, some se =>
      if 1 ≤ y ∧ 1 ≤ mo ∧ mo ≤ 12 ∧ 1 ≤ d ∧ d ≤ daysInMonth y mo ∧
          h ≤ 23 ∧ mi ≤ 59 ∧ se ≤ 59 then
        some ⟨y, mo, d, h, mi, se⟩
      else none
    | _, _, _, _, _, _ => none
  | _ => none

/-- One object of the issue-tracker JSON response, restricted to the keys
the script reads.  `pull_request` is `true` iff the object carries a
`pull_request` key (`"pull_request" in issue`). -/
structure Issue where
  number : Int
  title : String
  created_at : String
  closed_at : String
  pull_request : Bool
deriving DecidableEq

/-- One entry of `data_list` (lines 53–60).  `duration_hours` is kept as
an exact rational; Python stores the floating-point value of the same
quotient, and no claim depends on its rounding. -/
structure BugRecord where
  id : Int
  title : String
  created_at : PyDateTime
  closed_at : PyDateTime
  duration_hours : ℚ
deriving DecidableEq

/-- The record built for a non-pull-request issue with parsed
timestamps. -/
def mkBugRecord (i : Issue) (c cl : PyDateTime) : BugRecord :=
  { id := i.number
    title := i.title
    created_at := c
    closed_at := cl
    duration_hours := ((toSeconds cl - toSeconds c : Int) : ℚ) / 3600 }

/-- The `for issue in issues` loop (lines 45–60): skip pull requests,
parse both timestamps (an unparseable one raises, aborting the run),
append one record per remaining issue, in order. -/
def collectBugs : List Issue → Option (List BugRecord)
  | [] => some []
  | i :: rest =>
    if i.pull_request then collectBugs rest
    else
      match strptimeGH i.created_at, strptimeGH i.closed_at with
      | some c, some cl => (collectBugs rest).map (mkBugRecord i c cl :: ·)
      | _, _ => none

/-- Embedding of `analyze_and_save` (lines 38–62), reduced to the records it
analyses and saves: `none` when the input list is empty (the `if not
issues` early return: nothing is analysed) or when a timestamp raises. -/
def analyze_and_save (issues : List Issue) : Option (List BugRecord) :=
  if issues.isEmpty then none
  else collectBugs issues

/-! ## Derived predicates used in the statements below -/

/-- The header line yields a fresh record: four fields and a year
extraction that does not raise. -/
def headerParseOK (pd : String → Option Date) (l : String) : Bool :=
  match parseHeader pd l with
  | some (some _) => true
  | _ => false

/-- The §3 invariant: a record's totals are the sums over its file
changes. -/
def commitSums (c : Commit) : Prop :=
  c.additions = (c.files.map FileChange.additions).sum ∧
  c.deletions = (c.files.map FileChange.deletions).sum

/-- The invariant holds of every record the loop state can still emit. -/
def StateSums (s : PState) : Prop :=
  (∀ c ∈ s.finished, commitSums c) ∧
  (∀ c n, s.cur = some (c, n) → commitSums c)

/-- The commit list produced by the rest of the run, starting from an
in-progress record `c` already appended `n` times after `fin`. -/
def runFrom (pd : String → Option Date) (fin : List Commit) (c : Commit)
    (n : Nat) (lines : List String) : Option (List Commit) :=
  (runLines pd ⟨fin, some (c, n)⟩ lines).map finalize

/-! ## General lemmas -/

/-- The function `splitChar` never returns the empty list of parts. -/
theorem splitChar_ne_nil (sep : Char) (l : List Char) : splitChar sep l ≠ [] := by
  induction l with
  | nil => simp [splitChar]
  | cons c cs ih =>
    simp only [splitChar]
    split
    · simp
    · cases h : splitChar sep cs with
      | nil => exact absurd h ih
      | cons x xs => simp [h]

/-- A single returned part means the separator does not occur and the part
is the whole input. -/
theorem splitChar_single {sep : Char} {l m : List Char}
    (h : splitChar sep l = [m]) : m = l := by
  induction l generalizing m with
  | nil => simp [splitChar] at h; simp [h]
  | cons c cs ih =>
    simp only [splitChar] at h
    by_cases hc : c = sep
    · simp only [hc, if_pos rfl] at h
      cases hr : splitChar sep cs with
      | nil => exact absurd hr (splitChar_ne_nil sep cs)
      | cons x xs => rw [hr] at h; simp at h
    · simp only [if_neg hc] at h
      cases hr : splitChar sep cs with
      | nil => exact absurd hr (splitChar_ne_nil sep cs)
      | cons x xs =>
        rw [hr] at h
        cases xs with
        | nil =>
          have hx : x = cs := ih hr
          have hm : c :: x = m := by simpa using h
          rw [← hm, hx]
        | cons y ys => simp at h

/-- Splitting a run of the loop at a list append. -/
theorem runLines_append (pd : String → Option Date) (xs ys : List String)
    (s : PState) :
    runLines pd s (xs ++ ys) =
      (runLines pd s xs).bind (fun s' => runLines pd s' ys) := by
  induction xs generalizing s with
  | nil => simp [runLines]
  | cons l ls ih =>
    simp only [List.cons_append, runLines]
    cases step pd s l with
    | none => rfl
    | some s' => exact ih s'

/-- A stat line is never a header line (it contains a tab). -/
theorem statLine_not_header {l : String} (h : isStatLine l = true) :
    isHeaderLine l = false := by
  simp only [isStatLine, Bool.and_eq_true] at h
  unfold isHeaderLine
  rw [h.2]
  simp

/-- A header line that does not split into four fields is classified as
malformed by `parseHeader`. -/
theorem parseHeader_malformed (pd : String → Option Date) {l : String}
    (h : (splitPipe3 l).length ≠ 4) : parseHeader pd l = some none := by
  simp [parseHeader, h]

/-- The fields a fresh record starts with. -/
theorem parseHeader_fields (pd : String → Option Date) {l : String}
    {c : Commit} (h : parseHeader pd l = some (some c)) :
    c.hash = headerHash l ∧ c.files = [] ∧ c.additions = 0 ∧ c.deletions = 0 := by
  unfold parseHeader at h
  split at h
  · split at h
    · exact absurd h (by simp)
    · simp only [Option.some.injEq] at h
      subst h
      exact ⟨rfl, rfl, rfl, rfl⟩
  · exact absurd h (by simp)

/-- A successful `headerParseOK` yields the fresh record. -/
theorem headerParseOK_some {pd : String → Option Date} {l : String}
    (h : headerParseOK pd l = true) :
    ∃ c, parseHeader pd l = some (some c) := by
  unfold headerParseOK at h
  split at h
  · exact ⟨_, by assumption⟩
  · exact absurd h (by simp)

/-- The update `addStat` never changes the hash. -/
theorem addStat_hash (c : Commit) (l : String) : (addStat c l).hash = c.hash := by
  unfold addStat
  split <;> rfl

/-- A non-header line keeps the hash multiset and order of what the state
can still emit, and never raises. -/
theorem step_nonheader (pd : String → Option Date) (s : PState) {l : String}
    (hH : isHeaderLine l = false) :
    ∃ s₁, step pd s l = some s₁ ∧
      (finalize s₁).map Commit.hash = (finalize s).map Commit.hash := by
  by_cases hS : isStatLine l = true
  · cases hcur : s.cur with
    | none =>
      exact ⟨s, by simp [step, hH, hS, hcur], rfl⟩
    | some p =>
      obtain ⟨c, n⟩ := p
      refine ⟨⟨s.finished, some (addStat c l, n)⟩, by simp [step, hH, hS, hcur], ?_⟩
      simp [finalize, hcur, List.map_replicate, addStat_hash]
  · exact ⟨s, by simp [step, hH, hS], rfl⟩

/-- A well-formed header line appends exactly its own hash. -/
theorem step_header_ok (pd : String → Option Date) (s : PState) {l : String}
    {c : Commit} (hH : isHeaderLine l = true)
    (hc : parseHeader pd l = some (some c)) :
    ∃ s₁, step pd s l = some s₁ ∧
      (finalize s₁).map Commit.hash =
        (finalize s).map Commit.hash ++ [headerHash l] := by
  have hhash : c.hash = headerHash l := (parseHeader_fields pd hc).1
  cases hcur : s.cur with
  | none =>
    refine ⟨⟨s.finished, some (c, 0)⟩, by simp [step, hH, hc, hcur], ?_⟩
    simp [finalize, hcur, hhash]
  | some p =>
    obtain ⟨o, n⟩ := p
    refine ⟨⟨s.finished ++ List.replicate (n + 1) o, some (c, 0)⟩,
      by simp [step, hH, hc, hcur], ?_⟩
    simp [finalize, hcur, hhash]

/-- Main parser correspondence: when every header line of the remaining
input parses to a fresh record, the run succeeds and appends exactly one
record per header line, in input order (identified by the header's first
stripped field). -/
theorem runSpec (pd : String → Option Date) (lines : List String) :
    ∀ s : PState,
      (∀ l ∈ lines, isHeaderLine l = true → headerParseOK pd l = true) →
      ∃ s', runLines pd s lines = some s' ∧
        (finalize s').map Commit.hash =
          (finalize s).map Commit.hash ++
            (lines.filter isHeaderLine).map headerHash := by
  induction lines with
  | nil => intro s _; exact ⟨s, rfl, by simp⟩
  | cons l ls ih =>
    intro s hyp
    by_cases hH : isHeaderLine l = true
    · obtain ⟨c, hc⟩ := headerParseOK_some (hyp l (by simp) hH)
      obtain ⟨s₁, hstep, hmap₁⟩ := step_header_ok pd s hH hc
      obtain ⟨s', hrun, hmap⟩ := ih s₁ (fun x hx hhx => hyp x (by simp [hx]) hhx)
      refine ⟨s', by simp [runLines, hstep, hrun], ?_⟩
      rw [hmap, hmap₁, List.filter_cons_of_pos hH]
      simp
    · have hH' : isHeaderLine l = false := by simpa using hH
      obtain ⟨s₁, hstep, hmap₁⟩ := step_nonheader pd s hH'
      obtain ⟨s', hrun, hmap⟩ := ih s₁ (fun x hx hhx => hyp x (by simp [hx]) hhx)
      refine ⟨s', by simp [runLines, hstep, hrun], ?_⟩
      rw [hmap, hmap₁, List.filter_cons_of_neg (by simp [hH'])]

/-- The emitted prefix is only ever appended to: running from `fin` is
running from `[]` with `fin` prepended. -/
theorem runFrom_prefix (pd : String → Option Date) (lines : List String) :
    ∀ fin c n, runFrom pd fin c n lines =
      (runFrom pd [] c n lines).map (fin ++ ·) := by
  induction lines with
  | nil => intro fin c n; simp [runFrom, runLines, finalize]
  | cons l ls ih =>
    intro fin c n
    by_cases hH : isHeaderLine l = true
    · cases hph : parseHeader pd l with
      | none =>
        simp [runFrom, runLines, step, hH, hph]
      | some oc =>
        cases oc with
        | none =>
          have h1 : step pd ⟨fin, some (c, n)⟩ l = some ⟨fin, some (c, n + 1)⟩ := by
            simp [step, hH, hph]
          have h2 : step pd ⟨[], some (c, n)⟩ l = some ⟨[], some (c, n + 1)⟩ := by
            simp [step, hH, hph]
          simp only [runFrom, runLines, h1, h2]
          exact ih fin c (n + 1)
        | some d =>
          have h1 : step pd ⟨fin, some (c, n)⟩ l =
              some ⟨fin ++ List.replicate (n + 1) c, some (d, 0)⟩ := by
            simp [step, hH, hph]
          have h2 : step pd ⟨[], some (c, n)⟩ l =
              some ⟨List.replicate (n + 1) c, some (d, 0)⟩ := by
            simp [step, hH, hph]
          simp only [runFrom, runLines, h1, h2]
          rw [show (runLines pd ⟨fin ++ List.replicate (n + 1) c, some (d, 0)⟩ ls).map finalize =
                runFrom pd (fin ++ List.replicate (n + 1) c) d 0 ls from rfl,
              show (runLines pd ⟨List.replicate (n + 1) c, some (d, 0)⟩ ls).map finalize =
                runFrom pd (List.replicate (n + 1) c) d 0 ls from rfl,
              ih (fin ++ List.replicate (n + 1) c) d 0,
              ih (List.replicate (n + 1) c) d 0]
          cases runFrom pd [] d 0 ls <;> simp
    · have hH' : isHeaderLine l = false := by simpa using hH
      by_cases hS : isStatLine l = true
      · have h1 : step pd ⟨fin, some (c, n)⟩ l =
            some ⟨fin, some (addStat c l, n)⟩ := by
          simp [step, hH', hS]
        have h2 : step pd ⟨[], some (c, n)⟩ l =
            some ⟨[], some (addStat c l, n)⟩ := by
          simp [step, hH', hS]
        simp only [runFrom, runLines, h1, h2]
        exact ih fin (addStat c l) n
      · have hS' : isStatLine l = false := by simpa using hS
        have h1 : step pd ⟨fin, some (c, n)⟩ l = some ⟨fin, some (c, n)⟩ := by
          simp [step, hH', hS']
        have h2 : step pd ⟨[], some (c, n)⟩ l = some ⟨[], some (c, n)⟩ := by
          simp [step, hH', hS']
        simp only [runFrom, runLines, h1, h2]
        exact ih fin c n

/-- Taking one element past an emitted prefix. -/
theorem take_len_succ {α : Type _} (fin : List α) (c : α) (X : List α) :
    (fin ++ c :: X).take (fin.length + 1) = fin ++ [c] := by
  induction fin with
  | nil => simp
  | cons a t ih => simp [ih]

/-- Dropping an emitted prefix. -/
theorem drop_len {α : Type _} (fin Y : List α) :
    (fin ++ Y).drop fin.length = Y := by
  induction fin with
  | nil => rfl
  | cons a t ih => simp [ih]

/-- The combination `take (|fin| + 1) ++ drop |fin|` duplicates the element right after
`fin`. -/
theorem dup_shape {α : Type _} (fin : List α) (c : α) (X : List α) :
    (fin ++ c :: X).take (fin.length + 1) ++ (fin ++ c :: X).drop fin.length =
      fin ++ c :: c :: X := by
  rw [take_len_succ, drop_len]
  simp

/-- One more pending alias copy of the in-progress record duplicates, in
the final output, the record sitting right after the already-emitted
prefix. -/
theorem runFrom_dup (pd : String → Option Date) (lines : List String) :
    ∀ fin c n, runFrom pd fin c (n + 1) lines =
      (runFrom pd fin c n lines).map
        (fun out => out.take (fin.length + 1) ++ out.drop fin.length) := by
  induction lines with
  | nil =>
    intro fin c n
    have e1 : runFrom pd fin c (n + 1) [] =
        some (fin ++ List.replicate (n + 2) c) := rfl
    have e2 : runFrom pd fin c n [] =
        some (fin ++ List.replicate (n + 1) c) := rfl
    rw [e1, e2, Option.map_some']
    rw [show List.replicate (n + 1) c = c :: List.replicate n c from rfl]
    rw [dup_shape]
    rfl
  | cons l ls ih =>
    intro fin c n
    by_cases hH : isHeaderLine l = true
    · cases hph : parseHeader pd l with
      | none =>
        simp [runFrom, runLines, step, hH, hph]
      | some oc =>
        cases oc with
        | none =>
          have h1 : step pd ⟨fin, some (c, n + 1)⟩ l =
              some ⟨fin, some (c, n + 2)⟩ := by
            simp [step, hH, hph]
          have h2 : step pd ⟨fin, some (c, n)⟩ l =
              some ⟨fin, some (c, n + 1)⟩ := by
            simp [step, hH, hph]
          simp only [runFrom, runLines, h1, h2]
          exact ih fin c (n + 1)
        | some d =>
          have h1 : step pd ⟨fin, some (c, n + 1)⟩ l =
              some ⟨fin ++ List.replicate (n + 2) c, some (d, 0)⟩ := by
            simp [step, hH, hph]
          have h2 : step pd ⟨fin, some (c, n)⟩ l =
              some ⟨fin ++ List.replicate (n + 1) c, some (d, 0)⟩ := by
            simp [step, hH, hph]
          simp only [runFrom, runLines, h1, h2]
          rw [show (runLines pd ⟨fin ++ List.replicate (n + 2) c, some (d, 0)⟩ ls).map finalize =
                runFrom pd (fin ++ List.replicate (n + 2) c) d 0 ls from rfl,
              show (runLines pd ⟨fin ++ List.replicate (n + 1) c, some (d, 0)⟩ ls).map finalize =
                runFrom pd (fin ++ List.replicate (n + 1) c) d 0 ls from rfl,
              runFrom_prefix pd ls (fin ++ List.replicate (n + 2) c) d 0,
              runFrom_prefix pd ls (fin ++ List.replicate (n + 1) c) d 0]
          cases runFrom pd [] d 0 ls with
          | none => rfl
          | some t =>
            rw [Option.map_some', Option.map_some', Option.map_some']
            rw [List.append_assoc, List.append_assoc]
            rw [show List.replicate (n + 1) c ++ t =
                  c :: (List.replicate n c ++ t) from rfl]
            rw [dup_shape]
            rfl
    · have hH' : isHeaderLine l = false := by simpa using hH
      by_cases hS : isStatLine l = true
      · have h1 : step pd ⟨fin, some (c, n + 1)⟩ l =
            some ⟨fin, some (addStat c l, n + 1)⟩ := by
          simp [step, hH', hS]
        have h2 : step pd ⟨fin, some (c, n)⟩ l =
            some ⟨fin, some (addStat c l, n)⟩ := by
          simp [step, hH', hS]
        simp only [runFrom, runLines, h1, h2]
        exact ih fin (addStat c l) n
      · have hS' : isStatLine l = false := by simpa using hS
        have h1 : step pd ⟨fin, some (c, n + 1)⟩ l = some ⟨fin, some (c, n + 1)⟩ := by
          simp [step, hH', hS']
        have h2 : step pd ⟨fin, some (c, n)⟩ l = some ⟨fin, some (c, n)⟩ := by
          simp [step, hH', hS']
        simp only [runFrom, runLines, h1, h2]
        exact ih fin c n

/-- Before the first header line, every line leaves the empty loop state
untouched. -/
theorem runLines_no_header (pd : String → Option Date) (pre : List String)
    (fin : List Commit) (hpre : ∀ l ∈ pre, isHeaderLine l = false) :
    runLines pd ⟨fin, none⟩ pre = some ⟨fin, none⟩ := by
  induction pre with
  | nil => rfl
  | cons l ls ih =>
    have hH : isHeaderLine l = false := hpre l (by simp)
    by_cases hS : isStatLine l = true
    · have h1 : step pd ⟨fin, none⟩ l = some ⟨fin, none⟩ := by
        simp [step, hH, hS]
      simp only [runLines, h1]
      exact ih (fun x hx => hpre x (by simp [hx]))
    · have hS' : isStatLine l = false := by simpa using hS
      have h1 : step pd ⟨fin, none⟩ l = some ⟨fin, none⟩ := by
        simp [step, hH, hS']
      simp only [runLines, h1]
      exact ih (fun x hx => hpre x (by simp [hx]))

/-- The update `addStat` preserves the totals-are-sums invariant. -/
theorem addStat_sums {c : Commit} (h : commitSums c) (l : String) :
    commitSums (addStat c l) := by
  unfold addStat
  split
  · obtain ⟨ha, hd⟩ := h
    constructor
    · simp [ha]
    · simp [hd]
  · exact h

/-- The transition `step` preserves the invariant on every record the state can still
emit. -/
theorem step_sums (pd : String → Option Date) {s s' : PState} {l : String}
    (hs : StateSums s) (h : step pd s l = some s') : StateSums s' := by
  obtain ⟨hfin, hcur⟩ := hs
  unfold step at h
  split at h
  · split at h
    · exact absurd h (by simp)
    · split at h
      · obtain rfl : s = s' := by simpa using h
        exact ⟨hfin, hcur⟩
      · rename_i c n hc
        obtain rfl : (⟨s.finished, some (c, n + 1)⟩ : PState) = s' := by
          simpa using h
        exact ⟨hfin, fun c' n' h' => by
          obtain ⟨rfl, -⟩ : c = c' ∧ n + 1 = n' := by simpa using h'
          exact hcur c n hc⟩
    · rename_i newc heq
      split at h
      · rename_i hc
        obtain rfl : (⟨s.finished, some (newc, 0)⟩ : PState) = s' := by
          simpa using h
        refine ⟨hfin, fun c' n' h' => ?_⟩
        obtain ⟨rfl, -⟩ : newc = c' ∧ 0 = n' := by simpa using h'
        obtain ⟨-, hf, ha, hd⟩ := parseHeader_fields pd heq
        exact ⟨by simp [hf, ha], by simp [hf, hd]⟩
      · rename_i c n hc
        obtain rfl : (⟨s.finished ++ List.replicate (n + 1) c, some (newc, 0)⟩ :
            PState) = s' := by simpa using h
        constructor
        · intro x hx
          rcases List.mem_append.mp hx with hx | hx
          · exact hfin x hx
          · rw [List.eq_of_mem_replicate hx]
            exact hcur c n hc
        · intro c' n' h'
          obtain ⟨rfl, -⟩ : newc = c' ∧ 0 = n' := by simpa using h'
          obtain ⟨-, hf, ha, hd⟩ := parseHeader_fields pd heq
          exact ⟨by simp [hf, ha], by simp [hf, hd]⟩
  · split at h
    · split at h
      · obtain rfl : s = s' := by simpa using h
        exact ⟨hfin, hcur⟩
      · rename_i c n hc
        obtain rfl : (⟨s.finished, some (addStat c l, n)⟩ : PState) = s' := by
          simpa using h
        exact ⟨hfin, fun c' n' h' => by
          obtain ⟨rfl, -⟩ : addStat c l = c' ∧ n = n' := by simpa using h'
          exact addStat_sums (hcur c n hc) l⟩
    · obtain rfl : s = s' := by simpa using h
      exact ⟨hfin, hcur⟩

/-- The whole run preserves the invariant. -/
theorem runLines_sums (pd : String → Option Date) (lines : List String) :
    ∀ {s s' : PState}, StateSums s → runLines pd s lines = some s' →
      StateSums s' := by
  induction lines with
  | nil =>
    intro s s' hs h
    obtain rfl : s = s' := by simpa [runLines] using h
    exact hs
  | cons l ls ih =>
    intro s s' hs h
    simp only [runLines] at h
    cases hstep : step pd s l with
    | none => rw [hstep] at h; exact absurd h (by simp)
    | some s₁ =>
      rw [hstep] at h
      exact ih (step_sums pd hs hstep) h

/-- Every record flushed out of an invariant-respecting state satisfies
the invariant. -/
theorem finalize_sums {s : PState} (hs : StateSums s) :
    ∀ c ∈ finalize s, commitSums c := by
  obtain ⟨hfin, hcur⟩ := hs
  intro c hc
  unfold finalize at hc
  cases hcurv : s.cur with
  | none => rw [hcurv] at hc; exact hfin c hc
  | some p =>
    obtain ⟨o, n⟩ := p
    rw [hcurv] at hc
    rcases List.mem_append.mp hc with hc | hc
    · exact hfin c hc
    · rw [List.eq_of_mem_replicate hc]
      exact hcur o n hcurv

/-- A non-empty stripped input never hits the `return None` guard of
line 60. -/
theorem logLines_guard {stdout : String} (hne : pythonStrip stdout ≠ "") :
    ¬((logLines stdout).length = 1 ∧ (logLines stdout).getD 0 "" = "") := by
  rintro ⟨hlen, hhead⟩
  unfold logLines at hlen hhead
  cases hsp : splitChar '\n' (stripL stdout.data) with
  | nil => exact splitChar_ne_nil _ _ hsp
  | cons x xs =>
    rw [hsp] at hlen hhead
    cases xs with
    | cons y ys => simp at hlen
    | nil =>
      have hx : x = stripL stdout.data := splitChar_single hsp
      have hdata : x = [] := by
        have := congrArg String.data hhead
        simpa using this
      apply hne
      unfold pythonStrip
      rw [← hx, hdata]

/-- Splitting `processLines` at a prefix that aborted. -/
theorem processLines_append_abort (pd : String → Option Date)
    (pre rest : List String) (hpre : runLines pd ⟨[], none⟩ pre = none) :
    processLines pd (pre ++ rest) = none := by
  unfold processLines
  rw [runLines_append, hpre]
  rfl

/-- Splitting `processLines` at a prefix that left no record in
progress. -/
theorem processLines_append_none (pd : String → Option Date)
    (pre rest : List String) (sf : List Commit)
    (hpre : runLines pd ⟨[], none⟩ pre = some ⟨sf, none⟩) :
    processLines pd (pre ++ rest) =
      (runLines pd ⟨sf, none⟩ rest).map finalize := by
  unfold processLines
  rw [runLines_append, hpre]
  rfl

/-- Splitting `processLines` at a prefix that left a record in
progress. -/
theorem processLines_append_cur (pd : String → Option Date)
    (pre rest : List String) (sf : List Commit) (c : Commit) (n : Nat)
    (hpre : runLines pd ⟨[], none⟩ pre = some ⟨sf, some (c, n)⟩) :
    processLines pd (pre ++ rest) = runFrom pd sf c n rest := by
  unfold processLines runFrom
  rw [runLines_append, hpre]
  rfl

/-! ## Claims -/

/-- C1, counterexample: removing the malformed header line `x|y` changes
the output — with the line present the preceding record is emitted twice,
so a malformed header is *not* transparent for the record sequence. -/
theorem C1_malformed_header_counterexample :
    get_commit_data parseDateISO "a|b|2024-01-05|d\nx|y" ≠
      get_commit_data parseDateISO "a|b|2024-01-05|d" := by decide

/-- C1, amended: a malformed header line (non-empty, contains the field
separator, no tab, not exactly four fields) creates no record of its own;
the output either equals the output for the input with the line removed
(in particular whenever no record is in progress at that line), or
contains exactly one extra adjacent copy of one already-present record
(the in-progress record, which the Python code has appended once more by
reference and which keeps absorbing later stat lines). -/
theorem C1_malformed_header_amended (pd : String → Option Date)
    (pre post : List String) (bad : String)
    (hH : isHeaderLine bad = true) (h4 : (splitPipe3 bad).length ≠ 4) :
    processLines pd (pre ++ bad :: post) = processLines pd (pre ++ post) ∨
    ∃ out k, processLines pd (pre ++ post) = some out ∧
      processLines pd (pre ++ bad :: post) =
        some (out.take (k + 1) ++ out.drop k) := by
  have hbad := parseHeader_malformed pd h4
  cases hpre : runLines pd ⟨[], none⟩ pre with
  | none =>
    left
    rw [processLines_append_abort pd _ _ hpre,
        processLines_append_abort pd _ _ hpre]
  | some s =>
    obtain ⟨sf, scur⟩ := s
    cases scur with
    | none =>
      left
      rw [processLines_append_none pd _ _ _ hpre,
          processLines_append_none pd _ _ _ hpre]
      have hstep : step pd ⟨sf, none⟩ bad = some ⟨sf, none⟩ := by
        simp [step, hH, hbad]
      simp only [runLines, hstep]
    | some p =>
      obtain ⟨c, n⟩ := p
      have hstep : step pd ⟨sf, some (c, n)⟩ bad =
          some ⟨sf, some (c, n + 1)⟩ := by
        simp [step, hH, hbad]
      have hwith : processLines pd (pre ++ bad :: post) =
          runFrom pd sf c (n + 1) post := by
        rw [processLines_append_cur pd pre (bad :: post) sf c n hpre]
        unfold runFrom
        simp only [runLines, hstep]
      have hwithout : processLines pd (pre ++ post) = runFrom pd sf c n post :=
        processLines_append_cur pd pre post sf c n hpre
      rw [hwith, hwithout, runFrom_dup]
      cases runFrom pd sf c n post with
      | none => left; rfl
      | some out => right; exact ⟨out, sf.length, rfl, rfl⟩

/-- C1, witness for the amended statement at a concrete input: one good
header followed by the malformed header `x|y`. -/
theorem C1_malformed_header_witness :
    processLines parseDateISO (["a|b|2024-01-05|d"] ++ "x|y" :: []) =
        processLines parseDateISO (["a|b|2024-01-05|d"] ++ []) ∨
    ∃ out k, processLines parseDateISO (["a|b|2024-01-05|d"] ++ []) = some out ∧
      processLines parseDateISO (["a|b|2024-01-05|d"] ++ "x|y" :: []) =
        some (out.take (k + 1) ++ out.drop k) :=
  C1_malformed_header_amended parseDateISO ["a|b|2024-01-05|d"] [] "x|y"
    (by decide) (by decide)

/-- C2: the code *aborts the whole run* on some unparseable dates.  The
header `c|d|x-y|m2` has a date field `x-y` that no date parser accepts
(third conjunct), yet `get_commit_data` returns `None` for the whole
input (first conjunct) — including dropping the preceding well-formed
commit, which alone parses fine (second conjunct).  The uncaught raise
comes from `int(date.strip().split('-')[0])` on line 85, outside the
`try/except` that was written to turn unparseable dates into `NaT`. -/
theorem C2_unparseable_date_aborts_run :
    get_commit_data parseDateISO "a|b|2024-01-05|m1\nc|d|x-y|m2" = none ∧
    get_commit_data parseDateISO "a|b|2024-01-05|m1" =
      some [mkCommit parseDateISO "a" "b" "2024-01-05" "m1" (some 2024)] ∧
    parseDateISO (pythonStrip "x-y") = none := by decide

/-- C3, counterexample: the subject `"Update docs for routing"` is *not*
classified `documentation`: the pattern is `doc\b` and `docs` has a word
character after `doc`, so no documentation pattern matches. -/
theorem C3_update_docs_counterexample :
    classify_commit_type "Update docs for routing" ≠ "documentation" := by decide

/-- C3, amended: `"Update docs for routing"` matches no pattern group at
all and is classified `other`. -/
theorem C3_update_docs_amended :
    classify_commit_type "Update docs for routing" = "other" := by decide

/-- C4, counterexample: in the input `a|b|x-y|d` the only header line
splits into exactly four fields, yet the parser produces no record
sequence at all (`None`, via the uncaught year-extraction raise), not one
record per header line. -/
theorem C4_one_record_counterexample :
    (∀ l ∈ logLines "a|b|x-y|d", isHeaderLine l = true →
      (splitPipe3 l).length = 4) ∧
    get_commit_data parseDateISO "a|b|x-y|d" = none := by decide

/-- C4, amended: for every input text whose stripped form is non-empty
and in which every header line both splits into exactly four fields and
has a date field whose year extraction does not raise (`headerParseOK`),
the parser succeeds and produces exactly one record per header line, in
input order (each record carrying its header's first stripped field as
`hash`), the final in-progress record being flushed without any trailing
blank line. -/
theorem C4_one_record_per_header_amended (pd : String → Option Date)
    (stdout : String) (hne : pythonStrip stdout ≠ "")
    (hok : ∀ l ∈ logLines stdout, isHeaderLine l = true →
      headerParseOK pd l = true) :
    ∃ out, get_commit_data pd stdout = some out ∧
      out.map Commit.hash =
        ((logLines stdout).filter isHeaderLine).map headerHash := by
  obtain ⟨s', hrun, hmap⟩ := runSpec pd (logLines stdout) ⟨[], none⟩ hok
  refine ⟨finalize s', ?_, ?_⟩
  · unfold get_commit_data
    rw [if_neg (logLines_guard hne)]
    unfold processLines
    rw [hrun]
    rfl
  · simpa [finalize] using hmap

/-- C4, witness: a two-commit input with stat lines and no trailing blank
line. -/
theorem C4_one_record_per_header_witness :
    ∃ out, get_commit_data parseDateISO
        "a|b|2024-01-05|d\n1\t2\tf\nc|d|2024-01-06|e" = some out ∧
      out.map Commit.hash =
        ((logLines "a|b|2024-01-05|d\n1\t2\tf\nc|d|2024-01-06|e").filter
          isHeaderLine).map headerHash :=
  C4_one_record_per_header_amended parseDateISO
    "a|b|2024-01-05|d\n1\t2\tf\nc|d|2024-01-06|e" (by decide) (by decide)

/-- C5: every record the parser emits satisfies the §3 invariant — its
`additions` and `deletions` are the sums over its file changes, and a
record with no file changes has both totals zero. -/
theorem C5_sum_invariant (pd : String → Option Date) (stdout : String)
    (out : List Commit) (c : Commit)
    (h1 : get_commit_data pd stdout = some out) (h2 : c ∈ out) :
    c.additions = (c.files.map FileChange.additions).sum ∧
    c.deletions = (c.files.map FileChange.deletions).sum ∧
    (c.files = [] → c.additions = 0 ∧ c.deletions = 0) := by
  unfold get_commit_data at h1
  split at h1
  · exact absurd h1 (by simp)
  · unfold processLines at h1
    cases hrun : runLines pd ⟨[], none⟩ (logLines stdout) with
    | none => rw [hrun] at h1; exact absurd h1 (by simp)
    | some s' =>
      rw [hrun] at h1
      have hout : finalize s' = out := by simpa using h1
      have hinit : StateSums ⟨[], none⟩ :=
        ⟨fun c hc => absurd hc (by simp), fun c n h => by simp at h⟩
      have hs := runLines_sums pd (logLines stdout) hinit hrun
      obtain ⟨ha, hd⟩ := finalize_sums hs c (hout ▸ h2)
      exact ⟨ha, hd, fun hf => by simp [ha, hd, hf]⟩

/-- C5, witness: the record parsed from `a|b|c|d` with one stat line
`3 TAB 4 TAB f`. -/
theorem C5_sum_invariant_witness :
    ({ hash := "a", author := "b", date := none, message := "d",
       year := none, month := none,
       files := [{ filename := "f", additions := 3, deletions := 4,
                   changed_lines := 7 }],
       additions := 3, deletions := 4, changed_lines := 7, file_count := 1,
       commit_type := "other" } : Commit).additions =
      (({ hash := "a", author := "b", date := none, message := "d",
          year := none, month := none,
          files := [{ filename := "f", additions := 3, deletions := 4,
                      changed_lines := 7 }],
          additions := 3, deletions := 4, changed_lines := 7, file_count := 1,
          commit_type := "other" } : Commit).files.map
        FileChange.additions).sum ∧
    ({ hash := "a", author := "b", date := none, message := "d",
       year := none, month := none,
       files := [{ filename := "f", additions := 3, deletions := 4,
                   changed_lines := 7 }],
       additions := 3, deletions := 4, changed_lines := 7, file_count := 1,
       commit_type := "other" } : Commit).deletions =
      (({ hash := "a", author := "b", date := none, message := "d",
          year := none, month := none,
          files := [{ filename := "f", additions := 3, deletions := 4,
                      changed_lines := 7 }],
          additions := 3, deletions := 4, changed_lines := 7, file_count := 1,
          commit_type := "other" } : Commit).files.map
        FileChange.deletions).sum ∧
    (({ hash := "a", author := "b", date := none, message := "d",
        year := none, month := none,
        files := [{ filename := "f", additions := 3, deletions := 4,
                    changed_lines := 7 }],
        additions := 3, deletions := 4, changed_lines := 7, file_count := 1,
        commit_type := "other" } : Commit).files = [] →
      ({ hash := "a", author := "b", date := none, message := "d",
         year := none, month := none,
         files := [{ filename := "f", additions := 3, deletions := 4,
                     changed_lines := 7 }],
         additions := 3, deletions := 4, changed_lines := 7, file_count := 1,
         commit_type := "other" } : Commit).additions = 0 ∧
      ({ hash := "a", author := "b", date := none, message := "d",
         year := none, month := none,
         files := [{ filename := "f", additions := 3, deletions := 4,
                     changed_lines := 7 }],
         additions := 3, deletions := 4, changed_lines := 7, file_count := 1,
         commit_type := "other" } : Commit).deletions = 0) :=
  C5_sum_invariant parseDateISO "a|b|c|d\n3\t4\tf"
    [{ hash := "a", author := "b", date := none, message := "d",
       year := none, month := none,
       files := [{ filename := "f", additions := 3, deletions := 4,
                   changed_lines := 7 }],
       additions := 3, deletions := 4, changed_lines := 7, file_count := 1,
       commit_type := "other" }]
    { hash := "a", author := "b", date := none, message := "d",
      year := none, month := none,
      files := [{ filename := "f", additions := 3, deletions := 4,
                  changed_lines := 7 }],
      additions := 3, deletions := 4, changed_lines := 7, file_count := 1,
      commit_type := "other" }
    (by decide) (by decide)

/-- C6: any subject matching at least one feature pattern and at least
one bugfix pattern is classified `feature` — the groups are tried in the
fixed order of `patternGroups`, which begins with `feature`, and the
first group with a matching pattern wins. -/
theorem C6_priority_feature_over_bugfix (m : String)
    (hf : groupMatches featurePats (lowerData m) = true)
    (_hb : groupMatches bugfixPats (lowerData m) = true) :
    classify_commit_type m = "feature" := by
  unfold classify_commit_type patternGroups
  simp [List.find?, hf]

/-- C6, witness: `"Add fix for timeout"` matches `add\b` (feature) and
`fix\b` (bugfix) and is classified `feature`. -/
theorem C6_priority_witness :
    groupMatches featurePats (lowerData "Add fix for timeout") = true ∧
    groupMatches bugfixPats (lowerData "Add fix for timeout") = true ∧
    classify_commit_type "Add fix for timeout" = "feature" :=
  ⟨by decide, by decide,
    C6_priority_feature_over_bugfix "Add fix for timeout" (by decide) (by decide)⟩

/-- C7: the five concrete classifier examples of §8 that the code does
satisfy, plus the empty subject. -/
theorem C7_classifier_examples :
    classify_commit_type "Fix bug in request parsing" = "bugfix" ∧
    classify_commit_type "Add new feature for sessions" = "feature" ∧
    classify_commit_type "Refactor internal cache logic" = "refactor" ∧
    classify_commit_type "Bump build tool to v2" = "chore" ∧
    classify_commit_type "Improve performance of template rendering" =
      "performance" ∧
    classify_commit_type "" = "other" := by decide

/-- C8: contributor-tier classification is total (always one of the five
labels) and applies the thresholds in the stated order, first match
winning. -/
theorem C8_contributor_tiers (cc ad : Int) (hcc : 1 ≤ cc) :
    classify_contributor cc ad ∈
      ["Core Contributor", "Active Contributor", "Regular Contributor",
       "Occasional Contributor", "One-time Contributor"] ∧
    (100 ≤ cc ∧ 365 ≤ ad → classify_contributor cc ad = "Core Contributor") ∧
    (¬(100 ≤ cc ∧ 365 ≤ ad) → 50 ≤ cc →
      classify_contributor cc ad = "Active Contributor") ∧
    (cc < 50 → 10 ≤ cc → classify_contributor cc ad = "Regular Contributor") ∧
    (cc < 10 → 2 ≤ cc →
      classify_contributor cc ad = "Occasional Contributor") ∧
    (cc < 2 → classify_contributor cc ad = "One-time Contributor") := by
  unfold classify_contributor
  split_ifs with h1 h2 h3 h4 <;>
    refine ⟨by simp, ?_, ?_, ?_, ?_, ?_⟩ <;> intros <;>
      first
        | rfl
        | (exfalso; omega)

/-- C8, witness at a seven-commit, two-day author. -/
theorem C8_contributor_tiers_witness :
    classify_contributor 7 2 ∈
      ["Core Contributor", "Active Contributor", "Regular Contributor",
       "Occasional Contributor", "One-time Contributor"] ∧
    (100 ≤ (7 : Int) ∧ 365 ≤ (2 : Int) →
      classify_contributor 7 2 = "Core Contributor") ∧
    (¬(100 ≤ (7 : Int) ∧ 365 ≤ (2 : Int)) → 50 ≤ (7 : Int) →
      classify_contributor 7 2 = "Active Contributor") ∧
    ((7 : Int) < 50 → 10 ≤ (7 : Int) →
      classify_contributor 7 2 = "Regular Contributor") ∧
    ((7 : Int) < 10 → 2 ≤ (7 : Int) →
      classify_contributor 7 2 = "Occasional Contributor") ∧
    ((7 : Int) < 2 → classify_contributor 7 2 = "One-time Contributor") :=
  C8_contributor_tiers 7 2 (by decide)

/-- C9: a response list with one pull-request-flagged object and one
plain issue with parseable timestamps yields exactly one analysed record,
the one for the plain issue, in either order. -/
theorem C9_pull_request_excluded (pr iss : Issue) (c cl : PyDateTime)
    (hpr : pr.pull_request = true) (hiss : iss.pull_request = false)
    (hc : strptimeGH iss.created_at = some c)
    (hcl : strptimeGH iss.closed_at = some cl) :
    analyze_and_save [pr, iss] = some [mkBugRecord iss c cl] ∧
    analyze_and_save [iss, pr] = some [mkBugRecord iss c cl] := by
  constructor <;> simp [analyze_and_save, collectBugs, hpr, hiss, hc, hcl]

/-- C9, witness: a concrete pull request (whose timestamps are never even
parsed) and a concrete plain issue. -/
theorem C9_pull_request_excluded_witness :
    analyze_and_save
        [{ number := 1, title := "pr", created_at := "nope",
           closed_at := "nope", pull_request := true },
         { number := 2, title := "bug", created_at := "2024-01-01T00:00:00Z",
           closed_at := "2024-01-02T12:30:00Z", pull_request := false }] =
      some [mkBugRecord
        { number := 2, title := "bug", created_at := "2024-01-01T00:00:00Z",
          closed_at := "2024-01-02T12:30:00Z", pull_request := false }
        ⟨2024, 1, 1, 0, 0, 0⟩ ⟨2024, 1, 2, 12, 30, 0⟩] ∧
    analyze_and_save
        [{ number := 2, title := "bug", created_at := "2024-01-01T00:00:00Z",
           closed_at := "2024-01-02T12:30:00Z", pull_request := false },
         { number := 1, title := "pr", created_at := "nope",
           closed_at := "nope", pull_request := true }] =
      some [mkBugRecord
        { number := 2, title := "bug", created_at := "2024-01-01T00:00:00Z",
          closed_at := "2024-01-02T12:30:00Z", pull_request := false }
        ⟨2024, 1, 1, 0, 0, 0⟩ ⟨2024, 1, 2, 12, 30, 0⟩] :=
  C9_pull_request_excluded
    { number := 1, title := "pr", created_at := "nope",
      closed_at := "nope", pull_request := true }
    { number := 2, title := "bug", created_at := "2024-01-01T00:00:00Z",
      closed_at := "2024-01-02T12:30:00Z", pull_request := false }
    ⟨2024, 1, 1, 0, 0, 0⟩ ⟨2024, 1, 2, 12, 30, 0⟩
    rfl rfl (by decide) (by decide)

/-- C10: a stat line appearing before any header line has been seen is
discarded — the output equals the output for the input with that line
removed, so it creates no record, attaches to none, and contributes
nothing to any totals or file list. -/
theorem C10_orphan_stat_line_discarded (pd : String → Option Date)
    (pre post : List String) (st : String)
    (hpre : ∀ l ∈ pre, isHeaderLine l = false)
    (hst : isStatLine st = true) :
    processLines pd (pre ++ st :: post) = processLines pd (pre ++ post) := by
  have hrun := runLines_no_header pd pre [] hpre
  rw [processLines_append_none pd pre (st :: post) [] hrun,
      processLines_append_none pd pre post [] hrun]
  have hstep : step pd ⟨[], none⟩ st = some ⟨[], none⟩ := by
    simp [step, statLine_not_header hst, hst]
  simp only [runLines, hstep]

/-- C10, witness: a stat line after only a blank line, before the first
header. -/
theorem C10_orphan_stat_line_witness :
    processLines parseDateISO ([""] ++ "1\t2\tf" :: ["a|b|2024-01-05|d"]) =
      processLines parseDateISO ([""] ++ ["a|b|2024-01-05|d"]) :=
  C10_orphan_stat_line_discarded parseDateISO [""] ["a|b|2024-01-05|d"]
    "1\t2\tf" (by decide) (by decide)

end OSrc
